import Mathlib

/-!
Verification of the schedule-RESP analyzer pipeline (`src/app.py`).

The source is a pandas pipeline.  We embed it shallowly:

* numeric cell values are rationals; the IEEE behaviour that matters here
  (numpy float division by zero yielding `inf`/`-inf`/`nan`, `pd.isna`,
  comparisons against `nan`) is captured by the four-constructor type
  `PFloat`;
* a dataframe row is a record of `Option`-valued cells (`none` = `NaN`
  cell), a dataframe is a list of rows plus its column-name list;
* `process_file` is modelled from the point where column normalization
  has produced the canonical column names (the required-column check of
  line 49 onwards), since the guard, the cleaning steps, the grouping
  and the aggregation all operate on the normalized frame;
* pandas `groupby` over several key columns uses its default
  `dropna=True`: a row with a missing value in any key column belongs to
  no group.  The embedding reproduces this;
* `scipy.stats.beta.rvs` draws random samples; the draw is abstracted as
  an oracle argument `rvs`, while the degenerate `min == max` branch of
  `beta_pert_sample` (which never consults scipy) is modelled exactly.

Python's `round(x, 4)` is modelled as decimal rounding to 4 places with
ties to even (`roundHalfEven`).
-/

namespace ScheduleResp

/-- A numpy/pandas scalar: a finite value, `inf`, `-inf`, or `nan`. -/
inductive PFloat where
  | num : ℚ → PFloat
  | inf : PFloat
  | ninf : PFloat
  | nan : PFloat
deriving DecidableEq, Repr

/-- Round to the nearest integer, ties to the even integer
(the rounding Python's builtin `round` documents). -/
def roundHalfEven (q : ℚ) : ℤ :=
  let f : ℤ := ⌊q⌋
  if q < f + 1/2 then f
  else if (f : ℚ) + 1/2 < q then f + 1
  else if f % 2 = 0 then f else f + 1

/-- Python `round(x, 4)`: round a finite value to 4 decimal places. -/
def round4 (q : ℚ) : ℚ := (roundHalfEven (q * 10000) : ℚ) / 10000

/-- Python `round(x, 4)` on a numpy scalar: `round` is the identity on
`inf`, `-inf` and `nan`. -/
def roundPF : PFloat → PFloat
  | .num q => .num (round4 q)
  | x => x

/-- numpy float64 division of finite values: division by zero yields
`inf`, `-inf` or `nan` (for `0/0`) instead of raising. -/
def pdiv (a b : ℚ) : PFloat :=
  if b = 0 then
    if a = 0 then .nan else if 0 < a then .inf else .ninf
  else .num (a / b)

/-- Pandas `pd.notna` on a scalar: everything except `nan` is not-na. -/
def PFloat.notna : PFloat → Bool
  | .nan => false
  | _ => true

/-- Pandas `pd.isna` on a scalar. -/
def isnaPF : PFloat → Bool
  | .nan => true
  | _ => false

/-- Python `==` on floats: `nan` is not equal to anything, `inf`
and `-inf` are each equal to themselves. -/
def pyEq : PFloat → PFloat → Bool
  | .num a, .num b => decide (a = b)
  | .inf, .inf => true
  | .ninf, .ninf => true
  | _, _ => false

/-- The comparison `x <= 1.0` on a numpy scalar (any comparison with `nan` is false). -/
def le1 : PFloat → Bool
  | .num q => decide (q ≤ 1)
  | .ninf => true
  | _ => false

/-- One row of the normalized dataframe.  A `none` cell is a pandas
missing value (`NaN`). -/
structure Row where
  od : Option ℚ
  acdur : Option ℚ
  status : Option String
  gresp : Option String
  region : Option String
  division : Option String
  location : Option String
deriving DecidableEq, Repr

/-- The normalized dataframe: its column names and its rows. -/
structure Table where
  cols : List String
  rows : List Row
deriving DecidableEq, Repr

/-- The `required_cols` set of `process_file` (line 50). -/
def requiredCols : List String :=
  ["OD", "ACDur", "Activity Status", "G - Resp", "Region", "Division", "Location"]

/-- Line 58: `df['ACDur'] = df.apply(lambda x: min(x['ACDur'], 2 * x['OD']), axis=1)`
on one row (both cells are present by the time the clamp runs). -/
def clampRow (r : Row) : Row :=
  match r.od, r.acdur with
  | some o, some a => { r with acdur := some (if a ≤ 2 * o then a else 2 * o) }
  | _, _ => r

/-- Lines 55-59 of `process_file`: the five sequential cleaning steps. -/
def cleanRows (rows : List Row) : List Row :=
  let s1 := rows.filter (fun r => r.od.isSome && r.acdur.isSome)
  let s2 := s1.filter (fun r => decide (r.status = some "Completed"))
  let s3 := s2.filter (fun r => decide (r.od ≠ some (0 : ℚ)))
  let s4 := s3.map clampRow
  s4.filter (fun r => r.gresp.isSome)

/-- The grouping key `('G - Resp', 'Region', 'Division', 'Location')`.
pandas `groupby` (default `dropna=True`) assigns no group to a row with
a missing value in any key column, hence the `Option`. -/
def rowKey (r : Row) : Option (String × String × String × String) :=
  match r.gresp, r.region, r.division, r.location with
  | some g, some re, some d, some l => some (g, re, d, l)
  | _, _, _, _ => none

/-- The distinct group keys occurring in the cleaned rows. -/
def groupKeys (rows : List Row) : List (String × String × String × String) :=
  (rows.filterMap rowKey).dedup

/-- The rows belonging to group key `k`. -/
def groupRows (rows : List Row) (k : String × String × String × String) : List Row :=
  rows.filter (fun r => decide (rowKey r = some k))

/-- Cell `ACDur` of a cleaned row (present on every cleaned row). -/
def rowAC (r : Row) : ℚ := r.acdur.getD 0

/-- Cell `OD` of a cleaned row (present on every cleaned row). -/
def rowOD (r : Row) : ℚ := r.od.getD 0

/-- Pandas `group['ACDur'].sum()`. -/
def sumAC (rows : List Row) : ℚ := (rows.map rowAC).sum

/-- Pandas `group['OD'].sum()`. -/
def sumOD (rows : List Row) : ℚ := (rows.map rowOD).sum

/-- Line 69: `df_min = group[group['ACDur'] < group['OD']]`. -/
def dfMin (rows : List Row) : List Row :=
  rows.filter (fun r => decide (rowAC r < rowOD r))

/-- Line 70: `df_max = group[group['ACDur'] > group['OD']]`. -/
def dfMax (rows : List Row) : List Row :=
  rows.filter (fun r => decide (rowOD r < rowAC r))

/-- One output row of `process_file` (the dict built at lines 76-85). -/
structure SummaryRow where
  file : String
  region : String
  division : String
  location : String
  gresp : String
  minF : PFloat
  mostLikely : PFloat
  maxF : PFloat
deriving DecidableEq, Repr

/-- Lines 69-85: the three ratios and the result dict for one group.
`np.nan` stands for the empty-subset ratio, and the emitted
`'Most Likely': None` of line 83 is `nan` (both are `pd.isna`). -/
def summarizeGroup (file : String) (k : String × String × String × String)
    (group : List Row) : SummaryRow :=
  let dmin := dfMin group
  let dmax := dfMax group
  let min_ratio : PFloat := if dmin.isEmpty then .nan else pdiv (sumAC dmin) (sumOD dmin)
  let ml_ratio : PFloat := pdiv (sumAC group) (sumOD group)
  let max_ratio : PFloat := if dmax.isEmpty then .nan else pdiv (sumAC dmax) (sumOD dmax)
  { file := file
    region := k.2.1
    division := k.2.2.1
    location := k.2.2.2
    gresp := k.1
    minF := if min_ratio.notna then roundPF min_ratio else .num 1
    mostLikely := if ml_ratio.notna then roundPF ml_ratio else .nan
    maxF := if max_ratio.notna then roundPF max_ratio else .num 2 }

/-- Lines 49-87 of `process_file`: the required-column / empty-`G - Resp`
guard (returning `none` = Python `None`), the cleaning steps, the
grouping with the minimum-size threshold, and the per-group summary. -/
def process_file (file_name : String) (t : Table) (min_activities : ℕ) :
    Option (List SummaryRow) :=
  if !(requiredCols.all (fun c => t.cols.contains c))
      || t.rows.all (fun r => r.gresp.isNone) then
    none
  else
    let df := cleanRows t.rows
    some ((groupKeys df).filterMap (fun k =>
      let group := groupRows df k
      if group.length < min_activities then none
      else some (summarizeGroup file_name k group)))

/-- The random draw `beta.rvs(alpha, beta_param, loc, scale, size)` of the
non-degenerate branch, abstracted as an oracle from the PERT parameters
`(min, mode, max, size)` to the sample list. -/
def Sampler : Type := PFloat → PFloat → PFloat → ℕ → List PFloat

/-- Lines 89-94, `beta_pert_sample`: if `min_val == max_val` every sample
is that value (no distribution is fitted); otherwise scipy draws `size`
beta samples, abstracted by the `rvs` oracle. -/
def beta_pert_sample (rvs : Sampler) (min_val mode max_val : PFloat)
    (size : ℕ) : List PFloat :=
  if pyEq min_val max_val then List.replicate size min_val
  else rvs min_val mode max_val size

/-- The numpy mean `np.mean(samples <= 1.0)`: the fraction of samples `≤ 1.0`
(`nan` on an empty sample array). -/
def meanLe1 (l : List PFloat) : PFloat :=
  if l.length = 0 then .nan else .num ((l.countP le1 : ℚ) / (l.length : ℚ))

/-- Lines 100-104: the `Probability On Time` cell for one row; `none` is
the Python `None` recorded when `Min` or `Max` is missing. -/
def rowProb (rvs : Sampler) (size : ℕ) (row : SummaryRow) : Option PFloat :=
  if isnaPF row.minF || isnaPF row.maxF then none
  else some (roundPF (meanLe1 (beta_pert_sample rvs row.minF (.num 1) row.maxF size)))

/-- One row of the simulation result: the input row's cells plus the
`Probability On Time` column. -/
structure SimRow where
  base : SummaryRow
  prob : Option PFloat
deriving DecidableEq, Repr

/-- Lines 96-110, `estimate_on_time_probabilities`: each row is processed
independently and re-emitted with its probability. -/
def estimate_on_time_probabilities (rvs : Sampler) (df : List SummaryRow)
    (size : ℕ) : List SimRow :=
  df.map (fun row => ⟨row, rowProb rvs size row⟩)

/-- Step (1) of the cleaning, line 55: drop rows with missing `OD` or `ACDur`. -/
def dropMissingDur (rows : List Row) : List Row :=
  rows.filter (fun r => r.od.isSome && r.acdur.isSome)

/-- Step (2) of the cleaning, line 56: keep only rows with
`Activity Status` equal to the literal string `Completed`. -/
def keepCompleted (rows : List Row) : List Row :=
  rows.filter (fun r => decide (r.status = some "Completed"))

/-- Step (3) of the cleaning, line 57: drop rows with `OD` equal to zero. -/
def dropZeroOD (rows : List Row) : List Row :=
  rows.filter (fun r => decide (r.od ≠ some (0 : ℚ)))

/-- Step (4) of the cleaning, line 58: clamp `ACDur` on every surviving row. -/
def clampAll (rows : List Row) : List Row :=
  rows.map clampRow

/-- Step (5) of the cleaning, line 59: drop rows with missing `G - Resp`. -/
def dropMissingResp (rows : List Row) : List Row :=
  rows.filter (fun r => r.gresp.isSome)

/- Helper lemmas shared by the claim theorems. -/

/-- Unfolding of a successful `process_file` run: the guard was passed and
the result is the per-group summary of the cleaned rows. -/
theorem res_of_process_file_some {fname : String} {t : Table} {m : ℕ}
    {res : List SummaryRow} (hres : process_file fname t m = some res) :
    res = (groupKeys (cleanRows t.rows)).filterMap (fun k =>
      if (groupRows (cleanRows t.rows) k).length < m then none
      else some (summarizeGroup fname k (groupRows (cleanRows t.rows) k))) := by
  unfold process_file at hres
  split at hres
  · exact absurd hres (by simp)
  · simpa using hres.symm

/-- The grouping key decomposes componentwise. -/
theorem rowKey_some_iff (r : Row) (k : String × String × String × String) :
    rowKey r = some k ↔
      r.gresp = some k.1 ∧ r.region = some k.2.1 ∧
      r.division = some k.2.2.1 ∧ r.location = some k.2.2.2 := by
  unfold rowKey
  rcases r with ⟨od, ac, st, g, re, d, l⟩
  cases g <;> cases re <;> cases d <;> cases l <;>
    simp [Prod.ext_iff]

/-- Rounding fixes 1. -/
theorem round4_one : round4 1 = 1 := by
  norm_num [round4, roundHalfEven]

/-- Rounding fixes 0. -/
theorem round4_zero : round4 0 = 0 := by
  norm_num [round4, roundHalfEven]

/-- The emitted `Min`/`Max` cells are never `nan`. -/
theorem isna_ite_round (x : PFloat) (d : ℚ) :
    isnaPF (if x.notna then roundPF x else .num d) = false := by
  cases x <;> simp [PFloat.notna, roundPF, isnaPF]

/-- The `Min` cell of a summary when the early subset is non-empty and its
`OD` sum is non-zero. -/
theorem summarize_minF (fname : String) (k : String × String × String × String)
    (group : List Row) (h1 : dfMin group ≠ []) (h2 : sumOD (dfMin group) ≠ 0) :
    (summarizeGroup fname k group).minF =
      .num (round4 (sumAC (dfMin group) / sumOD (dfMin group))) := by
  have hemp : (dfMin group).isEmpty = false := by
    cases hd : dfMin group with
    | nil => exact absurd hd h1
    | cons a l => rfl
  simp [summarizeGroup, hemp, pdiv, h2, roundPF, PFloat.notna]

/-- The `Most Likely` cell of a summary when the group `OD` sum is non-zero. -/
theorem summarize_ml (fname : String) (k : String × String × String × String)
    (group : List Row) (h : sumOD group ≠ 0) :
    (summarizeGroup fname k group).mostLikely =
      .num (round4 (sumAC group / sumOD group)) := by
  simp [summarizeGroup, pdiv, h, roundPF, PFloat.notna]

/-- The `Max` cell of a summary when the late subset is non-empty and its
`OD` sum is non-zero. -/
theorem summarize_maxF (fname : String) (k : String × String × String × String)
    (group : List Row) (h1 : dfMax group ≠ []) (h2 : sumOD (dfMax group) ≠ 0) :
    (summarizeGroup fname k group).maxF =
      .num (round4 (sumAC (dfMax group) / sumOD (dfMax group))) := by
  have hemp : (dfMax group).isEmpty = false := by
    cases hd : dfMax group with
    | nil => exact absurd hd h1
    | cons a l => rfl
  simp [summarizeGroup, hemp, pdiv, h2, roundPF, PFloat.notna]

/-- The `Min` cell of any summary row is never `nan`. -/
theorem summarize_minF_notna (fname : String) (k : String × String × String × String)
    (group : List Row) : isnaPF (summarizeGroup fname k group).minF = false := by
  simp only [summarizeGroup]
  exact isna_ite_round _ _

/-- The `Max` cell of any summary row is never `nan`. -/
theorem summarize_maxF_notna (fname : String) (k : String × String × String × String)
    (group : List Row) : isnaPF (summarizeGroup fname k group).maxF = false := by
  simp only [summarizeGroup]
  exact isna_ite_round _ _

/-- C2: `process_file` cleans the normalized table by exactly the five
steps (drop missing `OD`/`ACDur`; keep `Activity Status == "Completed"`;
drop `OD == 0`; clamp `ACDur` to `2 * OD`; drop missing `G - Resp`) in
this order; each filtering step selects a sublist of its input (so no
dropped row is ever re-admitted) and the surviving row set shrinks
monotonically across the steps. -/
theorem cleaning_five_steps_monotone (rows : List Row) :
    cleanRows rows =
      dropMissingResp (clampAll (dropZeroOD (keepCompleted (dropMissingDur rows)))) ∧
    List.Sublist (dropMissingDur rows) rows ∧
    List.Sublist (keepCompleted (dropMissingDur rows)) (dropMissingDur rows) ∧
    List.Sublist (dropZeroOD (keepCompleted (dropMissingDur rows)))
      (keepCompleted (dropMissingDur rows)) ∧
    (clampAll (dropZeroOD (keepCompleted (dropMissingDur rows)))).length =
      (dropZeroOD (keepCompleted (dropMissingDur rows))).length ∧
    List.Sublist (dropMissingResp (clampAll (dropZeroOD (keepCompleted (dropMissingDur rows)))))
      (clampAll (dropZeroOD (keepCompleted (dropMissingDur rows)))) ∧
    (cleanRows rows).length ≤ rows.length := by
  refine ⟨rfl, List.filter_sublist _, List.filter_sublist _, List.filter_sublist _,
    List.length_map _ _, List.filter_sublist _, ?_⟩
  calc (cleanRows rows).length
      ≤ (clampAll (dropZeroOD (keepCompleted (dropMissingDur rows)))).length :=
        (List.filter_sublist _).length_le
    _ = (dropZeroOD (keepCompleted (dropMissingDur rows))).length := List.length_map _ _
    _ ≤ (keepCompleted (dropMissingDur rows)).length := (List.filter_sublist _).length_le
    _ ≤ (dropMissingDur rows).length := (List.filter_sublist _).length_le
    _ ≤ rows.length := (List.filter_sublist _).length_le

/-- C3: a group with no early finisher (no row with `ACDur < OD`) gets the
default `Min = 1`, and a group with no late finisher (no row with
`ACDur > OD`) gets the default `Max = 2`. -/
theorem empty_subset_defaults (fname : String) (k : String × String × String × String)
    (group : List Row) :
    (dfMin group = [] → (summarizeGroup fname k group).minF = .num 1) ∧
    (dfMax group = [] → (summarizeGroup fname k group).maxF = .num 2) := by
  constructor <;> intro h <;> simp [summarizeGroup, h, PFloat.notna]

/-- C6 (amended): a cleaned row whose `Region`, `Division` or `Location`
cell is missing is excluded from every group (pandas `groupby` drops
null-keyed rows by default), rather than forming its own bucket. -/
theorem missing_location_rows_grouped_nowhere (rows : List Row) (r : Row)
    (h : r.region = none ∨ r.division = none ∨ r.location = none) :
    ∀ k, r ∉ groupRows rows k := by
  intro k hk
  have hkey : rowKey r = some k :=
    of_decide_eq_true (List.mem_filter.mp hk).2
  have hc := (rowKey_some_iff r k).mp hkey
  rcases h with h | h | h
  · rw [h] at hc; exact Option.noConfusion hc.2.1
  · rw [h] at hc; exact Option.noConfusion hc.2.2.1
  · rw [h] at hc; exact Option.noConfusion hc.2.2.2

/-- C8: every cleaned row satisfies the clamp invariant
`ACDur ≤ 2 * OD`, and grouping and subset selection only select cleaned
rows (they never alter `ACDur` or `OD`), so the invariant is preserved
through aggregation. -/
theorem clamp_invariant_preserved (rows : List Row) :
    (∀ r ∈ cleanRows rows, ∃ o a : ℚ, r.od = some o ∧ r.acdur = some a ∧ a ≤ 2 * o) ∧
    (∀ k, ∀ r ∈ groupRows (cleanRows rows) k, r ∈ cleanRows rows) ∧
    (∀ k, ∀ r ∈ dfMin (groupRows (cleanRows rows) k), r ∈ cleanRows rows) ∧
    (∀ k, ∀ r ∈ dfMax (groupRows (cleanRows rows) k), r ∈ cleanRows rows) := by
  refine ⟨?_, ?_, ?_, ?_⟩
  · intro r hr
    unfold cleanRows at hr
    have h5 := List.mem_filter.mp hr
    obtain ⟨r0, hr0, rfl⟩ := List.mem_map.mp h5.1
    have h3 := List.mem_filter.mp hr0
    have h2 := List.mem_filter.mp h3.1
    have h1 := List.mem_filter.mp h2.1
    have hdur := h1.2
    cases ho : r0.od with
    | none => rw [ho] at hdur; simp at hdur
    | some o =>
      cases ha : r0.acdur with
      | none => rw [ho, ha] at hdur; simp at hdur
      | some a =>
        refine ⟨o, if a ≤ 2 * o then a else 2 * o, ?_, ?_, ?_⟩
        · simp [clampRow, ho, ha]
        · simp [clampRow, ho, ha]
        · split
          · assumption
          · exact le_refl _
  · intro k r hr
    exact (List.mem_filter.mp hr).1
  · intro k r hr
    exact (List.mem_filter.mp (List.mem_filter.mp hr).1).1
  · intro k r hr
    exact (List.mem_filter.mp (List.mem_filter.mp hr).1).1

/-- Convenience constructor for a fully-populated row. -/
def mkRow (od ac : ℚ) (st g re d l : String) : Row :=
  ⟨some od, some ac, some st, some g, some re, some d, some l⟩

/-- Example frame: one group with an early (5 of 10), a late (30 of 10,
clamped to 20) and an on-time (10 of 10) completed activity. -/
def exTable : Table :=
  ⟨["OD", "ACDur", "Activity Status", "G - Resp", "Region", "Division", "Location"],
   [mkRow 10 5 "Completed" "G" "R" "D" "L",
    mkRow 10 30 "Completed" "G" "R" "D" "L",
    mkRow 10 10 "Completed" "G" "R" "D" "L"]⟩

/-- The group key of the example frames. -/
def exKey : String × String × String × String := ("G", "R", "D", "L")

/-- Example frame whose single (otherwise clean) row has a missing `Region`. -/
def exMissingRegion : Table :=
  ⟨["OD", "ACDur", "Activity Status", "G - Resp", "Region", "Division", "Location"],
   [⟨some 1, some 2, some "Completed", some "G", none, some "D", some "L"⟩]⟩

/-- Example frame: one group whose two rows have `OD` values `1` and `-1`
(allowed by the `OD != 0` filter) summing to zero. -/
def exZeroOD : Table :=
  ⟨["OD", "ACDur", "Activity Status", "G - Resp", "Region", "Division", "Location"],
   [mkRow 1 2 "Completed" "G" "R" "D" "L",
    mkRow (-1) (-2) "Completed" "G" "R" "D" "L"]⟩

/-- Example frame: one group with a single on-time activity (no early and
no late finisher). -/
def exOnTime : Table :=
  ⟨["OD", "ACDur", "Activity Status", "G - Resp", "Region", "Division", "Location"],
   [mkRow 10 10 "Completed" "G" "R" "D" "L"]⟩

/-- A sampler oracle that always returns one in-time sample. -/
def oneSampler : Sampler := fun _ _ _ _ => [.num 1]

/-- A sampler oracle that never returns samples (never consulted in the
degenerate branch). -/
def emptySampler : Sampler := fun _ _ _ _ => []

/-- C5: `process_file` returns no result (`None`) exactly when, after
column normalization, a required column among `OD`, `ACDur`,
`Activity Status`, `G - Resp`, `Region`, `Division`, `Location` is
absent or the `G - Resp` column has no non-missing value; being a total
function, it never raises in this situation. -/
theorem process_file_none_iff_unusable (fname : String) (t : Table) (m : ℕ) :
    process_file fname t m = none ↔
      (∃ c ∈ requiredCols, c ∉ t.cols) ∨ ∀ r ∈ t.rows, r.gresp = none := by
  have hcond : (!(requiredCols.all (fun c => t.cols.contains c))
      || t.rows.all (fun r => r.gresp.isNone)) = true ↔
      ((∃ c ∈ requiredCols, c ∉ t.cols) ∨ ∀ r ∈ t.rows, r.gresp = none) := by
    simp [List.all_eq_false, Option.isNone_iff_eq_none]
  rw [process_file]
  split
  next h => exact iff_of_true rfl (hcond.mp h)
  next h => exact iff_of_false (by simp) (fun hr => h (hcond.mpr hr))

/-- C1: for every group that survives the minimum-size threshold in
`process_file`, its summary row is in the output, and (whenever the
corresponding weighted ratio is arithmetically defined) `Min` is the
sum-of-sums ratio over the early subset, `Most Likely` the ratio over
the whole group and `Max` the ratio over the late subset, each rounded
to 4 decimal places before being emitted. -/
theorem surviving_group_weighted_ratios (fname : String) (t : Table) (m : ℕ)
    (res : List SummaryRow) (hres : process_file fname t m = some res)
    (k : String × String × String × String)
    (hk : k ∈ groupKeys (cleanRows t.rows))
    (hlen : ¬ (groupRows (cleanRows t.rows) k).length < m) :
    summarizeGroup fname k (groupRows (cleanRows t.rows) k) ∈ res ∧
    (dfMin (groupRows (cleanRows t.rows) k) ≠ [] →
      sumOD (dfMin (groupRows (cleanRows t.rows) k)) ≠ 0 →
      (summarizeGroup fname k (groupRows (cleanRows t.rows) k)).minF =
        .num (round4 (sumAC (dfMin (groupRows (cleanRows t.rows) k)) /
          sumOD (dfMin (groupRows (cleanRows t.rows) k))))) ∧
    (sumOD (groupRows (cleanRows t.rows) k) ≠ 0 →
      (summarizeGroup fname k (groupRows (cleanRows t.rows) k)).mostLikely =
        .num (round4 (sumAC (groupRows (cleanRows t.rows) k) /
          sumOD (groupRows (cleanRows t.rows) k)))) ∧
    (dfMax (groupRows (cleanRows t.rows) k) ≠ [] →
      sumOD (dfMax (groupRows (cleanRows t.rows) k)) ≠ 0 →
      (summarizeGroup fname k (groupRows (cleanRows t.rows) k)).maxF =
        .num (round4 (sumAC (dfMax (groupRows (cleanRows t.rows) k)) /
          sumOD (dfMax (groupRows (cleanRows t.rows) k))))) := by
  refine ⟨?_, fun h1 h2 => summarize_minF _ _ _ h1 h2,
    fun h => summarize_ml _ _ _ h, fun h1 h2 => summarize_maxF _ _ _ h1 h2⟩
  rw [res_of_process_file_some hres]
  exact List.mem_filterMap.mpr ⟨k, hk, by rw [if_neg hlen]⟩

/-- C9 (counterexample): in `exZeroOD` both rows survive every filter,
the single group meets the threshold `2`, its `OD` values sum to zero,
and the emitted `Most Likely` is the null fallback (`nan`): the
pipeline's own filters do not make the `Most Likely` division safe. -/
theorem zero_od_sum_counterexample :
    sumOD (groupRows (cleanRows exZeroOD.rows) exKey) = 0 ∧
    (groupRows (cleanRows exZeroOD.rows) exKey).length = 2 ∧
    process_file "f" exZeroOD 2 =
      some [⟨"f", "R", "D", "L", "G", .num 2, .nan, .num 2⟩] := by
  norm_num [process_file, cleanRows, clampRow, groupKeys, groupRows, rowKey, summarizeGroup,
    dfMin, dfMax, sumAC, sumOD, rowAC, rowOD, requiredCols, pdiv, roundPF, round4,
    roundHalfEven, PFloat.notna, exZeroOD, exKey, mkRow, List.dedup, List.filterMap_cons,
    List.filter_cons, decide_eq_true_eq, List.dedup_cons_of_mem, List.dedup_cons_of_not_mem]

/-- C9 (amended): the null fallback for `Most Likely` is reachable with
the pipeline's own filters alone (see the counterexample), but if every
row of the group carries a positive `OD` — the spec's data-model
invariant — the group's `OD` sum is positive and `Most Likely` is the
defined weighted ratio. -/
theorem positive_od_most_likely_defined (fname : String)
    (k : String × String × String × String) (group : List Row)
    (hne : group ≠ [])
    (hod : ∀ r ∈ group, ∃ o : ℚ, r.od = some o ∧ 0 < o) :
    0 < sumOD group ∧
    (summarizeGroup fname k group).mostLikely =
      .num (round4 (sumAC group / sumOD group)) := by
  have hpos : 0 < sumOD group := by
    show 0 < (group.map rowOD).sum
    apply List.sum_pos
    · intro x hx
      obtain ⟨r, hr, rfl⟩ := List.mem_map.mp hx
      obtain ⟨o, ho, hop⟩ := hod r hr
      simpa [rowOD, ho] using hop
    · intro hmap
      exact hne (List.map_eq_nil_iff.mp hmap)
  exact ⟨hpos, summarize_ml _ _ _ (ne_of_gt hpos)⟩

/-- C6 (counterexample): the single otherwise-clean row of
`exMissingRegion` has a missing `Region`; with the threshold at `1` the
claim would give it its own group bucket and one output row, but
`process_file` emits no row at all — the row belongs to no group. -/
theorem missing_region_excluded_counterexample :
    (cleanRows exMissingRegion.rows).length = 1 ∧
    (∀ r ∈ cleanRows exMissingRegion.rows, r.region = none) ∧
    process_file "f" exMissingRegion 1 = some [] := by
  norm_num [process_file, cleanRows, clampRow, groupKeys, groupRows, rowKey, summarizeGroup,
    dfMin, dfMax, sumAC, sumOD, rowAC, rowOD, requiredCols, pdiv, roundPF, round4,
    roundHalfEven, PFloat.notna, exMissingRegion, List.dedup, List.filterMap_cons,
    List.filter_cons, decide_eq_true_eq]

/-- C4: when a row's `Min` equals its `Max` in Python's float equality,
`beta_pert_sample` returns `size` copies of that common value without
consulting the random sampler, and the resulting `Probability On Time`
is `1` when the value is at most `1.0` and `0` otherwise; in particular
for a finite common value `v` the probability is `1` iff `v ≤ 1`. -/
theorem degenerate_pert_probability (rvs : Sampler) (size : ℕ) (hsize : 0 < size)
    (row : SummaryRow) (heq : pyEq row.minF row.maxF = true) :
    beta_pert_sample rvs row.minF (.num 1) row.maxF size =
      List.replicate size row.minF ∧
    rowProb rvs size row = some (.num (if le1 row.minF then 1 else 0)) ∧
    ∀ v : ℚ, row.minF = .num v →
      rowProb rvs size row = some (.num (if v ≤ 1 then 1 else 0)) := by
  have hsamp : beta_pert_sample rvs row.minF (.num 1) row.maxF size =
      List.replicate size row.minF := by
    rw [beta_pert_sample, if_pos heq]
  have hnan : isnaPF row.minF = false ∧ isnaPF row.maxF = false := by
    cases hm : row.minF <;> cases hx : row.maxF <;>
      rw [hm, hx] at heq <;> simp [pyEq] at heq <;> simp [isnaPF]
  have hmean : meanLe1 (List.replicate size row.minF) =
      .num (if le1 row.minF then 1 else 0) := by
    rw [meanLe1]
    rw [List.length_replicate, List.countP_replicate]
    have hne : (size : ℚ) ≠ 0 := Nat.cast_ne_zero.mpr hsize.ne'
    by_cases hv : le1 row.minF = true
    · simp [hv, hsize.ne', div_self hne]
    · simp [hv, hsize.ne']
  have hprob : rowProb rvs size row = some (.num (if le1 row.minF then 1 else 0)) := by
    rw [rowProb, if_neg (by simp [hnan.1, hnan.2]), hsamp, hmean]
    by_cases hv : le1 row.minF = true <;>
      simp [hv, roundPF, round4_one, round4_zero]
  refine ⟨hsamp, hprob, ?_⟩
  intro v hval
  rw [hprob, hval]
  by_cases hv : v ≤ 1 <;> simp [le1, hv]

/-- C7: the estimator processes each input row independently: the output
is the row-wise map attaching a probability, the batch length is
preserved (no exception aborts the batch), a row with missing `Min` or
`Max` gets the undefined probability `None` without sampling, and every
input row reappears in the output with its cells unchanged. -/
theorem estimator_missing_minmax_rowlocal (rvs : Sampler) (df : List SummaryRow)
    (size : ℕ) :
    estimate_on_time_probabilities rvs df size =
      df.map (fun row => ⟨row, rowProb rvs size row⟩) ∧
    (estimate_on_time_probabilities rvs df size).length = df.length ∧
    (∀ row : SummaryRow, (isnaPF row.minF || isnaPF row.maxF) = true →
      rowProb rvs size row = none) ∧
    (∀ row ∈ df, SimRow.mk row (rowProb rvs size row) ∈
      estimate_on_time_probabilities rvs df size) := by
  refine ⟨rfl, List.length_map _ _, ?_, ?_⟩
  · intro row h
    rw [rowProb, if_pos h]
  · intro row hrow
    exact List.mem_map.mpr ⟨row, hrow, rfl⟩

/-- C10: every summary row emitted by `process_file` carries non-missing
`Min` and `Max` cells (the defaults stand in when a ratio is undefined),
so on such input the estimator's missing-`Min`/`Max` branch is
unreachable and, as long as the sampler yields at least one sample,
every output row carries a numeric (non-null) `Probability On Time`. -/
theorem summary_minmax_present_prob_numeric (rvs : Sampler)
    (hrvs : ∀ (a b c : PFloat) (n : ℕ), rvs a b c n ≠ [])
    (size : ℕ) (hsize : 0 < size)
    (fname : String) (t : Table) (m : ℕ) (res : List SummaryRow)
    (hres : process_file fname t m = some res) :
    (∀ s ∈ res, isnaPF s.minF = false ∧ isnaPF s.maxF = false) ∧
    (∀ sim ∈ estimate_on_time_probabilities rvs res size,
      ∃ q : ℚ, sim.prob = some (.num q)) := by
  have hna : ∀ s ∈ res, isnaPF s.minF = false ∧ isnaPF s.maxF = false := by
    intro s hs
    rw [res_of_process_file_some hres] at hs
    obtain ⟨k, hk, hsk⟩ := List.mem_filterMap.mp hs
    by_cases hl : (groupRows (cleanRows t.rows) k).length < m
    · rw [if_pos hl] at hsk
      exact absurd hsk (by simp)
    · rw [if_neg hl] at hsk
      obtain rfl : summarizeGroup fname k (groupRows (cleanRows t.rows) k) = s :=
        Option.some_injective _ hsk
      exact ⟨summarize_minF_notna _ _ _, summarize_maxF_notna _ _ _⟩
  refine ⟨hna, ?_⟩
  intro sim hsim
  obtain ⟨row, hrow, rfl⟩ := List.mem_map.mp hsim
  obtain ⟨h1, h2⟩ := hna row hrow
  have hcond : (isnaPF row.minF || isnaPF row.maxF) = false := by
    rw [h1, h2]
    rfl
  have hs : beta_pert_sample rvs row.minF (.num 1) row.maxF size ≠ [] := by
    rw [beta_pert_sample]
    split
    · simpa using hsize.ne'
    · exact hrvs _ _ _ _
  obtain ⟨b, L, hbl⟩ := List.exists_cons_of_ne_nil hs
  show ∃ q : ℚ, rowProb rvs size row = some (.num q)
  rw [rowProb, if_neg (by simp [hcond]), hbl, meanLe1]
  simp only [List.length_cons, Nat.succ_ne_zero, if_false, roundPF]
  exact ⟨_, rfl⟩

/-- The summary row that `process_file` produces for `exTable`. -/
def exResRow : SummaryRow :=
  ⟨"f", "R", "D", "L", "G", .num (1/2), .num (11667/10000), .num 2⟩

/-- A summary row whose `Min` equals its `Max` (both `0.8`). -/
def exDegRow : SummaryRow :=
  ⟨"f", "R", "D", "L", "G", .num (4/5), .num 1, .num (4/5)⟩

/-- A summary row whose `Min` cell is missing. -/
def exNaRow : SummaryRow :=
  ⟨"f", "R", "D", "L", "G", .nan, .num 1, .num (6/5)⟩

set_option maxRecDepth 8000 in
/-- Witness for C1 on `exTable` (threshold 3): the group survives and all
three weighted-ratio hypotheses hold. -/
theorem surviving_group_weighted_ratios_witness :
    summarizeGroup "f" exKey (groupRows (cleanRows exTable.rows) exKey) ∈ [exResRow] ∧
    (summarizeGroup "f" exKey (groupRows (cleanRows exTable.rows) exKey)).minF =
      .num (round4 (sumAC (dfMin (groupRows (cleanRows exTable.rows) exKey)) /
        sumOD (dfMin (groupRows (cleanRows exTable.rows) exKey)))) ∧
    (summarizeGroup "f" exKey (groupRows (cleanRows exTable.rows) exKey)).mostLikely =
      .num (round4 (sumAC (groupRows (cleanRows exTable.rows) exKey) /
        sumOD (groupRows (cleanRows exTable.rows) exKey))) ∧
    (summarizeGroup "f" exKey (groupRows (cleanRows exTable.rows) exKey)).maxF =
      .num (round4 (sumAC (dfMax (groupRows (cleanRows exTable.rows) exKey)) /
        sumOD (dfMax (groupRows (cleanRows exTable.rows) exKey)))) := by
  have h := surviving_group_weighted_ratios "f" exTable 3 [exResRow]
    (by norm_num [process_file, cleanRows, clampRow, groupKeys, groupRows, rowKey,
      summarizeGroup, dfMin, dfMax, sumAC, sumOD, rowAC, rowOD, requiredCols, pdiv, roundPF,
      round4, roundHalfEven, PFloat.notna, exTable, exResRow, mkRow, List.dedup,
      List.filterMap_cons, List.filter_cons, decide_eq_true_eq, List.dedup_cons_of_mem,
      List.dedup_cons_of_not_mem])
    exKey
    (by norm_num [groupKeys, cleanRows, clampRow, rowKey, exTable, exKey, mkRow, List.dedup,
      List.filterMap_cons, List.filter_cons, decide_eq_true_eq, List.dedup_cons_of_mem,
      List.dedup_cons_of_not_mem])
    (by norm_num [groupRows, cleanRows, clampRow, rowKey, exTable, exKey, mkRow,
      List.filter_cons, decide_eq_true_eq])
  refine ⟨h.1, h.2.1 ?_ ?_, h.2.2.1 ?_, h.2.2.2 ?_ ?_⟩ <;>
    norm_num [dfMin, dfMax, sumOD, rowAC, rowOD, groupRows, cleanRows, clampRow, rowKey,
      exTable, exKey, mkRow, List.filter_cons, decide_eq_true_eq]

/-- Witness for C3: a group with a single on-time activity has neither an
early nor a late finisher, and gets `Min = 1` and `Max = 2`. -/
theorem empty_subset_defaults_witness :
    (summarizeGroup "f" exKey [mkRow 10 10 "Completed" "G" "R" "D" "L"]).minF = .num 1 ∧
    (summarizeGroup "f" exKey [mkRow 10 10 "Completed" "G" "R" "D" "L"]).maxF = .num 2 :=
  ⟨(empty_subset_defaults "f" exKey [mkRow 10 10 "Completed" "G" "R" "D" "L"]).1
      (by norm_num [dfMin, rowAC, rowOD, mkRow, List.filter_cons, decide_eq_true_eq]),
   (empty_subset_defaults "f" exKey [mkRow 10 10 "Completed" "G" "R" "D" "L"]).2
      (by norm_num [dfMax, rowAC, rowOD, mkRow, List.filter_cons, decide_eq_true_eq])⟩

/-- Witness for C4: the degenerate row with `Min = Max = 0.8` yields
probability 1 (its value is at most 1). -/
theorem degenerate_pert_probability_witness :
    beta_pert_sample emptySampler exDegRow.minF (.num 1) exDegRow.maxF 10 =
      List.replicate 10 exDegRow.minF ∧
    rowProb emptySampler 10 exDegRow = some (.num (if (4:ℚ)/5 ≤ 1 then 1 else 0)) :=
  have h := degenerate_pert_probability emptySampler 10 (by norm_num) exDegRow
    (by norm_num [pyEq, exDegRow])
  ⟨h.1, h.2.2 (4/5) rfl⟩

/-- Witness for the amended C6: the region-less row of `exMissingRegion`
is not in the group of its remaining key values. -/
theorem missing_location_rows_grouped_nowhere_witness :
    (⟨some 1, some 2, some "Completed", some "G", none, some "D", some "L"⟩ : Row) ∉
      groupRows exMissingRegion.rows exKey :=
  missing_location_rows_grouped_nowhere exMissingRegion.rows
    ⟨some 1, some 2, some "Completed", some "G", none, some "D", some "L"⟩
    (Or.inl rfl) exKey

/-- Witness for C7: a row with a missing `Min` gets probability `None`
and still appears in the output batch. -/
theorem estimator_missing_minmax_rowlocal_witness :
    rowProb emptySampler 10 exNaRow = none ∧
    SimRow.mk exNaRow (rowProb emptySampler 10 exNaRow) ∈
      estimate_on_time_probabilities emptySampler [exNaRow] 10 :=
  ⟨(estimator_missing_minmax_rowlocal emptySampler [exNaRow] 10).2.2.1 exNaRow rfl,
   (estimator_missing_minmax_rowlocal emptySampler [exNaRow] 10).2.2.2 exNaRow
      (by simp)⟩

/-- Witness for C8: the clamped late row of `exTable` satisfies
`ACDur ≤ 2 * OD`. -/
theorem clamp_invariant_preserved_witness :
    ∃ o a : ℚ, (mkRow 10 20 "Completed" "G" "R" "D" "L").od = some o ∧
      (mkRow 10 20 "Completed" "G" "R" "D" "L").acdur = some a ∧ a ≤ 2 * o :=
  (clamp_invariant_preserved exTable.rows).1 (mkRow 10 20 "Completed" "G" "R" "D" "L")
    (by norm_num [cleanRows, clampRow, exTable, mkRow, List.filter_cons, decide_eq_true_eq])

/-- Witness for the amended C9: a singleton group with `OD = 10` has a
positive `OD` sum and a defined `Most Likely`. -/
theorem positive_od_most_likely_defined_witness :
    0 < sumOD [mkRow 10 5 "Completed" "G" "R" "D" "L"] ∧
    (summarizeGroup "f" exKey [mkRow 10 5 "Completed" "G" "R" "D" "L"]).mostLikely =
      .num (round4 (sumAC [mkRow 10 5 "Completed" "G" "R" "D" "L"] /
        sumOD [mkRow 10 5 "Completed" "G" "R" "D" "L"])) :=
  positive_od_most_likely_defined "f" exKey [mkRow 10 5 "Completed" "G" "R" "D" "L"]
    (by simp)
    (by
      intro r hr
      rw [List.mem_singleton] at hr
      subst hr
      exact ⟨10, rfl, by norm_num⟩)

set_option maxRecDepth 8000 in
/-- Witness for C10: the run on `exTable` produces a summary row with
non-missing `Min` and `Max`. -/
theorem summary_minmax_present_prob_numeric_witness :
    isnaPF exResRow.minF = false ∧ isnaPF exResRow.maxF = false :=
  (summary_minmax_present_prob_numeric oneSampler
    (by intro a b c n; simp [oneSampler]) 10 (by norm_num) "f" exTable 3 [exResRow]
    (by norm_num [process_file, cleanRows, clampRow, groupKeys, groupRows, rowKey,
      summarizeGroup, dfMin, dfMax, sumAC, sumOD, rowAC, rowOD, requiredCols, pdiv, roundPF,
      round4, roundHalfEven, PFloat.notna, exTable, exResRow, mkRow, List.dedup,
      List.filterMap_cons, List.filter_cons, decide_eq_true_eq, List.dedup_cons_of_mem,
      List.dedup_cons_of_not_mem])).1 exResRow (by simp)

end ScheduleResp
